import Mathlib

/-!
# Event service: request routing, dispatch and response encoding

A shallow embedding of `services/events/handlers.go`.

* The request path is a list of characters (`r.URL.Path`).
* The standard-library calls the handler makes (`regexp`, `strconv.Atoi`,
  `json.Encoder.Encode`, `http.ResponseWriter`) are modelled by their
  documented behaviour.
* The package `data` (the data collaborator), the JSON rendering of the event
  types and the behaviour of the response stream are parameters (`Env`).
* Go's `int` is 64 bits wide.
-/

namespace Events

/-! ## Library models: regexp and strconv -/

/-- Character class `\d` of Go's regexp package: the ASCII digits `0` to `9` only. -/
def isDigit (c : Char) : Bool :=
  decide (48 ≤ c.toNat) && decide (c.toNat ≤ 57)

/-- The call `idPattern.FindStringSubmatch(path)` for
`idPattern = regexp.MustCompile("^/(\d+)/?")`.

The pattern is anchored at the start of the text only. It needs a `/`, then the
greedy group `(\d+)` takes the longest run of digits (at least one), then the
greedy `/?` takes one more `/` when there is one. What follows is not looked at.
The result is `nil` (here `[]`) when there is no match, and otherwise the slice
holding the whole match followed by the text of group 1. -/
def FindStringSubmatch (path : List Char) : List (List Char) :=
  match path with
  | [] => []
  | c :: rest =>
    if c = '/' then
      let digits := rest.takeWhile isDigit
      if digits.isEmpty then []
      else
        let slash : List Char :=
          match rest.dropWhile isDigit with
          | [] => []
          | d :: _ => if d = '/' then ['/'] else []
        [c :: (digits ++ slash), digits]
    else []

/-- The two kinds of `*strconv.NumError` that `Atoi` reports. -/
inductive NumError where
  | ErrSyn
  | ErrRange
  deriving DecidableEq, Repr

/-- Largest `uint64`. -/
def maxUint64 : Nat := 2 ^ 64 - 1

/-- Largest Go `int` (64 bits). -/
def maxInt : Int := 2 ^ 63 - 1

/-- Smallest Go `int` (64 bits). -/
def minInt : Int := -(2 ^ 63)

/-- The digit loop of `strconv.ParseUint(s, 10, 64)`: `n` is the value
accumulated so far. A byte that is not a digit gives `(0, ErrSyn)`; as soon as
the value leaves the `uint64` range the loop stops with `(maxUint64, ErrRange)`. -/
def parseUintLoop : List Char → Nat → Nat × Option NumError
  | [], n => (n, none)
  | c :: cs, n =>
    if isDigit c then
      if maxUint64 / 10 + 1 ≤ n then (maxUint64, some NumError.ErrRange)
      else
        let n1 := n * 10 + (c.toNat - 48)
        if maxUint64 < n1 then (maxUint64, some NumError.ErrRange)
        else parseUintLoop cs n1
    else (0, some NumError.ErrSyn)

/-- The call `strconv.ParseUint(s, 10, 64)`. -/
def ParseUint (s : List Char) : Nat × Option NumError :=
  match s with
  | [] => (0, some NumError.ErrSyn)
  | _ :: _ => parseUintLoop s 0

/-- The range check of `strconv.ParseInt` on the magnitude `un` read by
`ParseUint`; `neg` says whether a minus sign was read. -/
def parseIntFinish (neg : Bool) (r : Nat × Option NumError) : Int × Option NumError :=
  match r with
  | (_, some NumError.ErrSyn) => (0, some NumError.ErrSyn)
  | (un, _) =>
    if !neg && decide (2 ^ 63 ≤ un) then (maxInt, some NumError.ErrRange)
    else if neg && decide (2 ^ 63 < un) then (minInt, some NumError.ErrRange)
    else if neg then (-(un : Int), none)
    else ((un : Int), none)

/-- The call `strconv.Atoi(s)` on a 64-bit platform, that is
`strconv.ParseInt(s, 10, 0)` with the result converted to `int`: an optional
sign, then decimal digits. It returns the value and the error; on a range error
the value is the nearest `int`. (The fast path `Atoi` has for short strings
returns the same pairs.) -/
def Atoi (s : List Char) : Int × Option NumError :=
  match s with
  | [] => (0, some NumError.ErrSyn)
  | c :: cs =>
    if c = '+' then parseIntFinish false (ParseUint cs)
    else if c = '-' then parseIntFinish true (ParseUint cs)
    else parseIntFinish false (ParseUint s)

/-! ## Words of the specification about paths -/

/-- Decimal value of a run of digits. -/
def decimalValue (ds : List Char) : Nat :=
  ds.foldl (fun n c => n * 10 + (c.toNat - 48)) 0

/-- The full pattern `^/\d+/?$`: a slash, one or more decimal digits, an
optional trailing slash, nothing else after. -/
def matchesFullPattern (path : List Char) : Bool :=
  match path with
  | [] => false
  | c :: rest =>
    decide (c = '/') && !(rest.takeWhile isDigit).isEmpty &&
      (decide (rest.dropWhile isDigit = []) || decide (rest.dropWhile isDigit = ['/']))

/-- The path starts with `/` immediately followed by at least one ASCII digit. -/
def startsWithSlashDigit (path : List Char) : Bool :=
  match path with
  | c :: d :: _ => decide (c = '/') && isDigit d
  | _ => false

/-- The longest run of digits right after the first character of the path. -/
def digitRun (path : List Char) : List Char :=
  path.tail.takeWhile isDigit

/-! ## The collaborators and the response writer -/

/-- A Go `error` value, identified with its message. -/
abbrev GoError := String

/-- Bytes written to the response stream. -/
abbrev Bytes := List Nat

/-- The constant `http.StatusOK`. -/
def StatusOK : Nat := 200

/-- The constant `http.StatusInternalServerError`. -/
def StatusInternalServerError : Nat := 500

/-- The values the handlers pass to `encodeAsJSON` (its parameter has type
`interface{}`): the sequence returned by `data.GetAll` or the single event
returned by `data.GetByID`. -/
inductive Value (Event : Type) where
  | events (es : List Event)
  | event (e : Event)

/-- What one `Write` on the response stream does with the bytes it is given:
it takes them all, or it fails with an error after taking the first `n`. -/
inductive WriteResult where
  | done
  | failed (n : Nat) (err : GoError)

/-- Everything the handler calls and does not own: the package `data`
(`GetAll`, `GetByID`), the JSON rendering `encoding/json` gives to the values
of the event types (`marshal`, which may fail), and the response stream under
the `http.ResponseWriter` (`streamWrite`). -/
structure Env (Event : Type) where
  GetAll : Except GoError (List Event)
  GetByID : Int → Except GoError Event
  marshal : Value Event → Except GoError Bytes
  streamWrite : Bytes → WriteResult

/-- A call the handler makes on its `http.ResponseWriter`. -/
inductive Effect where
  | writeHeader (code : Nat)
  | write (p : Bytes)
  deriving DecidableEq, Repr

/-- A call the handler makes on the package `data`. -/
inductive DataCall where
  | GetAll
  | GetByID (id : Int)
  deriving DecidableEq, Repr

/-- An `http.ResponseWriter`: the header map, the status committed to the
client (`none` until the header is written), the body bytes the stream took,
and the calls made on the writer, oldest first. -/
structure ResponseWriter where
  header : List (String × String)
  status : Option Nat
  body : Bytes
  effects : List Effect
  deriving DecidableEq, Repr

/-- The method `WriteHeader` of `http.ResponseWriter`: the first status written
is the one the client gets; a later call changes nothing for the client. -/
def ResponseWriter.WriteHeader (w : ResponseWriter) (code : Nat) : ResponseWriter :=
  { w with
    status := (match w.status with
      | none => some code
      | some c => some c),
    effects := w.effects ++ [Effect.writeHeader code] }

/-- The method `Write` of `http.ResponseWriter`: when no status was written
yet, `Write` first commits `http.StatusOK`; then the bytes go to the stream. -/
def ResponseWriter.Write (streamWrite : Bytes → WriteResult) (w : ResponseWriter)
    (p : Bytes) : ResponseWriter × Option GoError :=
  let committed : Option Nat :=
    match w.status with
    | none => some StatusOK
    | some c => some c
  match streamWrite p with
  | WriteResult.done =>
    ({ w with status := committed, body := w.body ++ p,
              effects := w.effects ++ [Effect.write p] }, none)
  | WriteResult.failed n err =>
    ({ w with status := committed, body := w.body ++ p.take n,
              effects := w.effects ++ [Effect.write p] }, some err)

/-- What one request leaves behind: the response writer, the entries the
handler gave to `log.Print`, and the calls it made on `data`. -/
structure State where
  w : ResponseWriter
  log : List GoError
  dataCalls : List DataCall
  deriving DecidableEq, Repr

/-- The state at the start of a request: nothing written, logged or called. -/
def fresh : State :=
  { w := { header := [], status := none, body := [], effects := [] },
    log := [], dataCalls := [] }

/-! ## The handler (`handlers.go`) -/

/-- The function `encodeAsJSON`: `json.NewEncoder(w).Encode(data)` renders the
value first; when that fails nothing is written; otherwise the rendering
followed by a newline (byte 10) goes to the stream in a single `Write`. -/
def encodeAsJSON {Event : Type} (env : Env Event) (data : Value Event)
    (w : ResponseWriter) : ResponseWriter × Option GoError :=
  match env.marshal data with
  | Except.error err => (w, some err)
  | Except.ok b => w.Write env.streamWrite (b ++ [10])

/-- The method `eventHandler.getAll`. -/
def getAll {Event : Type} (env : Env Event) (s : State) : State :=
  let s := { s with dataCalls := s.dataCalls ++ [DataCall.GetAll] }
  match env.GetAll with
  | Except.error _ => { s with w := s.w.WriteHeader StatusInternalServerError }
  | Except.ok events =>
    match encodeAsJSON env (Value.events events) s.w with
    | (w, some _) => { s with w := w.WriteHeader StatusInternalServerError }
    | (w, none) => { s with w := w }

/-- The method `eventHandler.getByID`. -/
def getByID {Event : Type} (env : Env Event) (id : Int) (s : State) : State :=
  let s := { s with dataCalls := s.dataCalls ++ [DataCall.GetByID id] }
  match env.GetByID id with
  | Except.error err =>
    { s with w := s.w.WriteHeader StatusInternalServerError, log := s.log ++ [err] }
  | Except.ok event =>
    match encodeAsJSON env (Value.event event) s.w with
    | (w, some _) => { s with w := w.WriteHeader StatusInternalServerError }
    | (w, none) => { s with w := w }

/-- The method `eventHandler.ServeHTTP`. The result is `none` when the index
expression `matches[1]` is out of range (a run-time panic in Go). -/
def ServeHTTP {Event : Type} (env : Env Event) (path : List Char) (s : State) :
    Option State :=
  let submatches := FindStringSubmatch path
  if submatches.length = 0 then
    some (getAll env s)
  else
    match submatches.get? 1 with
    | none => none
    | some m => some (getByID env (Atoi m).1 s)

/-! ## Reading a trace of writer calls -/

/-- Number of statuses in a trace of writer calls, given whether a status was
written before: every explicit `WriteHeader` counts, and so does the implicit
`200` committed by a `Write` that comes before any status. -/
def statusCount : Bool → List Effect → Nat
  | _, [] => 0
  | _, Effect.writeHeader _ :: es => 1 + statusCount true es
  | true, Effect.write _ :: es => statusCount true es
  | false, Effect.write _ :: es => 1 + statusCount true es

/-- No body write comes after a failure status (a `WriteHeader` with a code of
400 or more); `failed` says whether such a status was written before. -/
def noWriteAfterFailure : Bool → List Effect → Bool
  | _, [] => true
  | failed, Effect.writeHeader code :: es =>
    noWriteAfterFailure (failed || decide (400 ≤ code)) es
  | failed, Effect.write _ :: es => !failed && noWriteAfterFailure failed es

/-- The three shapes the trace of writer calls of `getAll` and `getByID` can
have on a fresh writer. -/
def handlerTrace (es : List Effect) : Prop :=
  es = [Effect.writeHeader StatusInternalServerError] ∨
  (∃ p, es = [Effect.write p]) ∨
  (∃ p, es = [Effect.write p, Effect.writeHeader StatusInternalServerError])

/-- A collaborator with three events, all of whose calls succeed, a rendering
that never fails, and a stream that takes every byte. -/
def okEnv : Env Nat where
  GetAll := Except.ok [7, 8, 9]
  GetByID := fun id => Except.ok id.toNat
  marshal := fun v =>
    match v with
    | Value.events es => Except.ok ([91] ++ es ++ [93])
    | Value.event e => Except.ok [123, e, 125]
  streamWrite := fun _ => WriteResult.done

/-- A collaborator whose lookups both fail. -/
def failingDataEnv : Env Nat where
  GetAll := Except.error "no events"
  GetByID := fun _ => Except.error "no such event"
  marshal := okEnv.marshal
  streamWrite := fun _ => WriteResult.done

/-- As `okEnv`, but the response stream fails on `Write` without taking a byte
(the client has gone away). -/
def brokenStreamEnv : Env Nat where
  GetAll := okEnv.GetAll
  GetByID := okEnv.GetByID
  marshal := okEnv.marshal
  streamWrite := fun _ => WriteResult.failed 0 "write: broken pipe"

/-- As `okEnv`, but the rendering fails. -/
def failingMarshalEnv : Env Nat where
  GetAll := okEnv.GetAll
  GetByID := okEnv.GetByID
  marshal := fun _ => Except.error "json: unsupported value"
  streamWrite := fun _ => WriteResult.done

/-! ## Lemmas on the library models -/

theorem isDigit_ne_plus {c : Char} (h : isDigit c = true) : c ≠ '+' := by
  rintro rfl
  revert h
  decide

theorem isDigit_ne_minus {c : Char} (h : isDigit c = true) : c ≠ '-' := by
  rintro rfl
  revert h
  decide

theorem slash_not_digit : isDigit '/' = false := by decide

/-- The accumulated value never decreases along the digit loop. -/
theorem le_foldl_digits (cs : List Char) (n : Nat) :
    n ≤ cs.foldl (fun n c => n * 10 + (c.toNat - 48)) n := by
  induction cs generalizing n with
  | nil => simp
  | cons c cs ih =>
    simp only [List.foldl_cons]
    have := ih (n * 10 + (c.toNat - 48))
    omega

/-- On digits only, the loop of `ParseUint` returns the decimal value, or the
largest `uint64` with a range error once the value does not fit. -/
theorem parseUintLoop_digits (cs : List Char) (n : Nat)
    (hd : ∀ c ∈ cs, isDigit c = true) (hn : n ≤ maxUint64) :
    parseUintLoop cs n =
      if cs.foldl (fun n c => n * 10 + (c.toNat - 48)) n ≤ maxUint64
      then (cs.foldl (fun n c => n * 10 + (c.toNat - 48)) n, none)
      else (maxUint64, some NumError.ErrRange) := by
  induction cs generalizing n with
  | nil => simp [parseUintLoop, hn]
  | cons c cs ih =>
    have hc : isDigit c = true := hd c (List.mem_cons_self _ _)
    have hcs : ∀ d ∈ cs, isDigit d = true := fun d hd2 => hd d (List.mem_cons_of_mem _ hd2)
    have hmono := le_foldl_digits cs (n * 10 + (c.toNat - 48))
    simp only [parseUintLoop, hc, if_true, List.foldl_cons]
    by_cases h1 : maxUint64 / 10 + 1 ≤ n
    · have h2 : ¬ (cs.foldl (fun n c => n * 10 + (c.toNat - 48)) (n * 10 + (c.toNat - 48))
          ≤ maxUint64) := by
        unfold maxUint64 at h1 ⊢
        omega
      simp [h1, h2]
    · by_cases h3 : maxUint64 < n * 10 + (c.toNat - 48)
      · have h2 : ¬ (cs.foldl (fun n c => n * 10 + (c.toNat - 48)) (n * 10 + (c.toNat - 48))
            ≤ maxUint64) := by omega
        simp [h1, h3, h2]
      · simp only [h1, h3, if_false]
        exact ih _ hcs (by omega)

/-- On a non-empty run of digits `Atoi` returns the decimal value when it is
below `2 ^ 63`, and the largest `int` otherwise. -/
theorem Atoi_digits (ds : List Char) (hne : ds ≠ [])
    (hd : ∀ c ∈ ds, isDigit c = true) :
    (Atoi ds).1 = if decimalValue ds < 2 ^ 63 then (decimalValue ds : Int) else maxInt := by
  cases ds with
  | nil => exact absurd rfl hne
  | cons c cs =>
    have hc : isDigit c = true := hd c (List.mem_cons_self _ _)
    have hloop := parseUintLoop_digits (c :: cs) 0 hd (by decide)
    simp only [Atoi, if_neg (isDigit_ne_plus hc), if_neg (isDigit_ne_minus hc), ParseUint,
      hloop]
    unfold decimalValue
    generalize (c :: cs).foldl (fun n c => n * 10 + (c.toNat - 48)) 0 = v
    have hmax : maxUint64 = 18446744073709551615 := by decide
    have h63 : (2 : Nat) ^ 63 = 9223372036854775808 := by norm_num
    rw [hmax, h63]
    by_cases hv : v ≤ 18446744073709551615
    · rw [if_pos hv]
      by_cases hv2 : v < 9223372036854775808
      · have hge : ¬ (9223372036854775808 ≤ v) := by omega
        simp [hv2, parseIntFinish, hge]
      · have hge : 9223372036854775808 ≤ v := by omega
        simp [hv2, parseIntFinish, hge]
    · rw [if_neg hv]
      have hv2 : ¬ (v < 9223372036854775808) := by omega
      simp [hv2, parseIntFinish]

/-- The identifier `Atoi` reads from a run of digits lies between `0` and the
largest `int`. -/
theorem Atoi_digits_range (ds : List Char) (hne : ds ≠ [])
    (hd : ∀ c ∈ ds, isDigit c = true) :
    0 ≤ (Atoi ds).1 ∧ (Atoi ds).1 ≤ maxInt := by
  rw [Atoi_digits ds hne hd]
  unfold maxInt
  split <;> omega

theorem digitRun_all_digits (path : List Char) : ∀ c ∈ digitRun path, isDigit c = true := by
  intro c hc
  exact (List.mem_takeWhile_imp hc)

theorem digitRun_ne_nil {path : List Char} (h : startsWithSlashDigit path = true) :
    digitRun path ≠ [] := by
  match path, h with
  | c :: d :: rest, h =>
    simp only [startsWithSlashDigit, Bool.and_eq_true, decide_eq_true_eq] at h
    simp [digitRun, List.takeWhile_cons, h.2]

/-- A path that starts with a slash and a digit matches, and group 1 is the run
of digits after the slash. -/
theorem FindStringSubmatch_of_start {path : List Char}
    (h : startsWithSlashDigit path = true) :
    ∃ whole, FindStringSubmatch path = [whole, digitRun path] := by
  match path, h with
  | c :: d :: rest, h =>
    simp only [startsWithSlashDigit, Bool.and_eq_true, decide_eq_true_eq] at h
    obtain ⟨hc, hdig⟩ := h
    refine ⟨c :: ((d :: rest).takeWhile isDigit ++
      (match (d :: rest).dropWhile isDigit with
        | [] => []
        | e :: _ => if e = '/' then ['/'] else [])), ?_⟩
    simp [FindStringSubmatch, hc, digitRun, List.takeWhile_cons, hdig]

/-- A path that does not start with a slash and a digit does not match. -/
theorem FindStringSubmatch_of_not_start {path : List Char}
    (h : startsWithSlashDigit path = false) : FindStringSubmatch path = [] := by
  match path, h with
  | [], _ => rfl
  | [c], _ => by_cases hc : c = '/' <;> simp [FindStringSubmatch, hc]
  | c :: d :: rest, h =>
    by_cases hc : c = '/'
    · have hd : isDigit d = false := by
        simpa [startsWithSlashDigit, hc] using h
      simp [FindStringSubmatch, hc, List.takeWhile_cons, hd]
    · simp [FindStringSubmatch, hc]

/-! ## Lemmas on the handler -/

/-- The routing of `ServeHTTP` in one equation; in particular the index
`matches[1]` is always in range. -/
theorem ServeHTTP_eq {Event : Type} (env : Env Event) (path : List Char) (s : State) :
    ServeHTTP env path s =
      some (if startsWithSlashDigit path = true
        then getByID env (Atoi (digitRun path)).1 s
        else getAll env s) := by
  by_cases h : startsWithSlashDigit path = true
  · obtain ⟨whole, hw⟩ := FindStringSubmatch_of_start h
    simp [ServeHTTP, hw, h]
  · have h2 : startsWithSlashDigit path = false := by simpa using h
    simp [ServeHTTP, FindStringSubmatch_of_not_start h2, h2]

theorem getAll_dataCalls {Event : Type} (env : Env Event) (s : State) :
    (getAll env s).dataCalls = s.dataCalls ++ [DataCall.GetAll] := by
  unfold getAll
  cases env.GetAll with
  | error e => rfl
  | ok events =>
    dsimp only
    rcases encodeAsJSON env (Value.events events) s.w with ⟨w, _ | e⟩ <;> rfl

theorem getByID_dataCalls {Event : Type} (env : Env Event) (id : Int) (s : State) :
    (getByID env id s).dataCalls = s.dataCalls ++ [DataCall.GetByID id] := by
  unfold getByID
  cases env.GetByID id with
  | error e => rfl
  | ok event =>
    dsimp only
    rcases encodeAsJSON env (Value.event event) s.w with ⟨w, _ | e⟩ <;> rfl

theorem encodeAsJSON_header {Event : Type} (env : Env Event) (v : Value Event)
    (w : ResponseWriter) : (encodeAsJSON env v w).1.header = w.header := by
  unfold encodeAsJSON ResponseWriter.Write
  cases env.marshal v with
  | error e => rfl
  | ok b =>
    dsimp only
    cases env.streamWrite (b ++ [10]) <;> rfl

theorem getAll_header {Event : Type} (env : Env Event) (s : State) :
    (getAll env s).w.header = s.w.header := by
  unfold getAll
  cases env.GetAll with
  | error e => rfl
  | ok events =>
    have h := encodeAsJSON_header env (Value.events events) s.w
    dsimp only
    generalize encodeAsJSON env (Value.events events) s.w = r at h ⊢
    rcases r with ⟨w, _ | e⟩ <;> exact h

theorem getByID_header {Event : Type} (env : Env Event) (id : Int) (s : State) :
    (getByID env id s).w.header = s.w.header := by
  unfold getByID
  cases env.GetByID id with
  | error e => rfl
  | ok event =>
    have h := encodeAsJSON_header env (Value.event event) s.w
    dsimp only
    generalize encodeAsJSON env (Value.event event) s.w = r at h ⊢
    rcases r with ⟨w, _ | e⟩ <;> exact h

theorem takeWhile_all_digits (ds : List Char) (hd : ∀ c ∈ ds, isDigit c = true)
    (rest : List Char) (hr : ∀ c, rest.head? = some c → isDigit c = false) :
    (ds ++ rest).takeWhile isDigit = ds := by
  induction ds with
  | nil =>
    cases rest with
    | nil => rfl
    | cons r rs => simp [List.takeWhile_cons, hr r rfl]
  | cons d ds ih =>
    have h1 : isDigit d = true := hd d (List.mem_cons_self _ _)
    simp only [List.cons_append, List.takeWhile_cons, h1, if_true]
    rw [ih (fun c hc => hd c (List.mem_cons_of_mem _ hc))]

theorem startsWithSlashDigit_slash_digits (ds rest : List Char) (hne : ds ≠ [])
    (hd : ∀ c ∈ ds, isDigit c = true) : startsWithSlashDigit ('/' :: (ds ++ rest)) = true := by
  cases ds with
  | nil => exact absurd rfl hne
  | cons d ds => simp [startsWithSlashDigit, hd d (List.mem_cons_self _ _)]

/-- The full pattern in words: the path is a slash, a non-empty run of digits
and at most one more slash. -/
theorem matchesFullPattern_iff (path : List Char) :
    matchesFullPattern path = true ↔
      ∃ ds : List Char, ds ≠ [] ∧ (∀ c ∈ ds, isDigit c = true) ∧
        (path = '/' :: ds ∨ path = '/' :: (ds ++ ['/'])) := by
  constructor
  · intro h
    cases path with
    | nil => simp [matchesFullPattern] at h
    | cons c rest =>
      simp only [matchesFullPattern, Bool.and_eq_true, decide_eq_true_eq, Bool.or_eq_true,
        Bool.not_eq_true', List.isEmpty_eq_false] at h
      obtain ⟨⟨hc, hne⟩, htail⟩ := h
      refine ⟨rest.takeWhile isDigit, ?_, fun c hc2 => List.mem_takeWhile_imp hc2, ?_⟩
      · intro h0
        simp [h0] at hne
      · have hsplit := List.takeWhile_append_dropWhile isDigit rest
        rcases htail with h1 | h1
        · left
          rw [h1, List.append_nil] at hsplit
          rw [hc, hsplit]
        · right
          rw [h1] at hsplit
          rw [hc, hsplit]
  · rintro ⟨ds, hne, hd, rfl | rfl⟩
    · have h1 := takeWhile_all_digits ds hd [] (by simp)
      rw [List.append_nil] at h1
      have h2 := List.takeWhile_append_dropWhile isDigit ds
      rw [h1] at h2
      have h3 : ds.dropWhile isDigit = [] := by simpa using h2
      cases ds with
      | nil => exact absurd rfl hne
      | cons d ds => simp [matchesFullPattern, h1, h3]
    · have h1 := takeWhile_all_digits ds hd ['/'] (by simp [slash_not_digit])
      have h2 := List.takeWhile_append_dropWhile isDigit (ds ++ ['/'])
      rw [h1] at h2
      have h3 : (ds ++ ['/']).dropWhile isDigit = ['/'] := by simpa using h2
      cases ds with
      | nil => exact absurd rfl hne
      | cons d ds =>
        simp only [matchesFullPattern, h1, h3]
        simp

/-! ## Routing -/

/-- C1, as stated, fails: the path `/42/extra` does not match the full pattern
`^/\d+/?$`, and yet `ServeHTTP` calls `getByID` with 42 (and `data.GetByID`),
not `getAll`. -/
theorem extra_segment_routes_to_getByID :
    matchesFullPattern ['/', '4', '2', '/', 'e', 'x', 't', 'r', 'a'] = false ∧
    ServeHTTP okEnv ['/', '4', '2', '/', 'e', 'x', 't', 'r', 'a'] fresh
      = some (getByID okEnv 42 fresh) ∧
    (ServeHTTP okEnv ['/', '4', '2', '/', 'e', 'x', 't', 'r', 'a'] fresh).map State.dataCalls
      = some [DataCall.GetByID 42] ∧
    (ServeHTTP okEnv ['/', '4', '2', '/', 'e', 'x', 't', 'r', 'a'] fresh).map State.dataCalls
      ≠ some [DataCall.GetAll] := by
  decide

/-- C1, amended: for every request path that does not start with a slash
immediately followed by a decimal digit, `ServeHTTP` does what `getAll` does:
it calls `data.GetAll` once and never `data.GetByID`. -/
theorem ServeHTTP_getAll_of_not_start {Event : Type} (env : Env Event) (path : List Char)
    (s : State) (h : startsWithSlashDigit path = false) :
    ServeHTTP env path s = some (getAll env s) ∧
    (ServeHTTP env path fresh).map State.dataCalls = some [DataCall.GetAll] := by
  simp [ServeHTTP_eq, h, getAll_dataCalls, fresh]

/-- C1, amended, at the empty path, at `/` and at `/abc`. -/
theorem ServeHTTP_getAll_of_not_start_witness :
    (startsWithSlashDigit [] = false ∧
      ServeHTTP okEnv [] fresh = some (getAll okEnv fresh)) ∧
    (startsWithSlashDigit ['/'] = false ∧
      ServeHTTP okEnv ['/'] fresh = some (getAll okEnv fresh)) ∧
    (startsWithSlashDigit ['/', 'a', 'b', 'c'] = false ∧
      (ServeHTTP okEnv ['/', 'a', 'b', 'c'] fresh).map State.dataCalls
        = some [DataCall.GetAll]) :=
  ⟨⟨by decide, (ServeHTTP_getAll_of_not_start okEnv [] fresh (by decide)).1⟩,
   ⟨by decide, (ServeHTTP_getAll_of_not_start okEnv ['/'] fresh (by decide)).1⟩,
   ⟨by decide, (ServeHTTP_getAll_of_not_start okEnv ['/', 'a', 'b', 'c'] fresh (by decide)).2⟩⟩

/-- C2, as stated, fails: the path `/9223372036854775808` has the full form,
the decimal value of its digit run is `2 ^ 63`, and `ServeHTTP` calls `getByID`
with `2 ^ 63 - 1`. -/
theorem long_digit_run_saturates :
    matchesFullPattern ['/', '9', '2', '2', '3', '3', '7', '2', '0', '3', '6', '8', '5', '4',
      '7', '7', '5', '8', '0', '8'] = true ∧
    decimalValue ['9', '2', '2', '3', '3', '7', '2', '0', '3', '6', '8', '5', '4',
      '7', '7', '5', '8', '0', '8'] = 9223372036854775808 ∧
    (ServeHTTP okEnv ['/', '9', '2', '2', '3', '3', '7', '2', '0', '3', '6', '8', '5', '4',
      '7', '7', '5', '8', '0', '8'] fresh).map State.dataCalls
      = some [DataCall.GetByID 9223372036854775807] := by
  decide

/-- C2, amended: for every path made of a slash, one or more decimal digits
and an optional trailing slash, `ServeHTTP` does what `getByID id` does, where
`id` is the decimal value of the digit run when that value is below `2 ^ 63`,
and `2 ^ 63 - 1` otherwise. -/
theorem ServeHTTP_getByID_of_full {Event : Type} (env : Env Event) (ds : List Char)
    (s : State) (hne : ds ≠ []) (hd : ∀ c ∈ ds, isDigit c = true) :
    ServeHTTP env ('/' :: ds) s
      = some (getByID env
          (if decimalValue ds < 2 ^ 63 then (decimalValue ds : Int) else maxInt) s) ∧
    ServeHTTP env ('/' :: (ds ++ ['/'])) s
      = some (getByID env
          (if decimalValue ds < 2 ^ 63 then (decimalValue ds : Int) else maxInt) s) := by
  have hrun1 : digitRun ('/' :: ds) = ds := by
    have h := takeWhile_all_digits ds hd [] (by simp)
    rwa [List.append_nil] at h
  have hrun2 : digitRun ('/' :: (ds ++ ['/'])) = ds :=
    takeWhile_all_digits ds hd ['/'] (by simp [slash_not_digit])
  have hs1 : startsWithSlashDigit ('/' :: ds) = true := by
    have h := startsWithSlashDigit_slash_digits ds [] hne hd
    rwa [List.append_nil] at h
  have hs2 := startsWithSlashDigit_slash_digits ds ['/'] hne hd
  constructor
  · rw [ServeHTTP_eq, if_pos hs1, hrun1, Atoi_digits ds hne hd]
  · rw [ServeHTTP_eq, if_pos hs2, hrun2, Atoi_digits ds hne hd]

/-- C2, amended, at `/42` and `/42/`: both give the identifier 42. -/
theorem ServeHTTP_getByID_of_full_witness :
    ServeHTTP okEnv ['/', '4', '2'] fresh = some (getByID okEnv 42 fresh) ∧
    ServeHTTP okEnv ['/', '4', '2', '/'] fresh = some (getByID okEnv 42 fresh) :=
  ServeHTTP_getByID_of_full okEnv ['4', '2'] fresh (by decide) (by decide)

/-- C8: for every request path, `ServeHTTP` returns, and every identifier it
passed to `data.GetByID` (through `getByID`) is a non-negative integer, also
when the digit run is too long for an `int`. -/
theorem ServeHTTP_id_nonneg {Event : Type} (env : Env Event) (path : List Char) :
    ∃ s, ServeHTTP env path fresh = some s ∧
      ∀ id, DataCall.GetByID id ∈ s.dataCalls → 0 ≤ id := by
  rw [ServeHTTP_eq]
  refine ⟨_, rfl, ?_⟩
  intro id hid
  by_cases h : startsWithSlashDigit path = true
  · rw [if_pos h, getByID_dataCalls] at hid
    simp only [fresh, List.nil_append, List.mem_singleton, DataCall.GetByID.injEq] at hid
    rw [hid]
    exact (Atoi_digits_range _ (digitRun_ne_nil h) (digitRun_all_digits path)).1
  · rw [if_neg h, getAll_dataCalls] at hid
    simp [fresh] at hid

/-- C8 at a path whose digit run does not fit in an `int`: `data.GetByID` is
called, with the largest `int`. -/
theorem ServeHTTP_id_nonneg_witness :
    (∃ s, ServeHTTP okEnv ['/', '9', '9', '9', '9', '9', '9', '9', '9', '9', '9', '9', '9',
        '9', '9', '9', '9', '9', '9', '9', '9', '9', '9'] fresh = some s ∧
      ∀ id, DataCall.GetByID id ∈ s.dataCalls → 0 ≤ id) ∧
    (ServeHTTP okEnv ['/', '9', '9', '9', '9', '9', '9', '9', '9', '9', '9', '9', '9',
        '9', '9', '9', '9', '9', '9', '9', '9', '9', '9'] fresh).map State.dataCalls
      = some [DataCall.GetByID 9223372036854775807] :=
  ⟨ServeHTTP_id_nonneg okEnv _, by decide⟩

/-- C10: the routing the code performs. For every request path `ServeHTTP`
returns (the index `matches[1]` is in range): it does what `getByID` does, with
the identifier `Atoi` reads from the longest run of digits after the leading
slash, when the path starts with a slash immediately followed by a digit,
whatever follows; and it does what `getAll` does otherwise. That identifier is
the decimal value of the run when it is below `2 ^ 63` and the largest `int`
otherwise. `data.GetByID` is called if and only if the path starts so. -/
theorem ServeHTTP_routing {Event : Type} (env : Env Event) (path : List Char) (s : State) :
    ServeHTTP env path s
      = some (if startsWithSlashDigit path = true
          then getByID env (Atoi (digitRun path)).1 s
          else getAll env s) ∧
    (startsWithSlashDigit path = true →
      (Atoi (digitRun path)).1
        = if decimalValue (digitRun path) < 2 ^ 63
          then (decimalValue (digitRun path) : Int) else maxInt) ∧
    ((ServeHTTP env path fresh).map State.dataCalls
      = some (if startsWithSlashDigit path = true
          then [DataCall.GetByID (Atoi (digitRun path)).1]
          else [DataCall.GetAll])) ∧
    ((∃ id, (ServeHTTP env path fresh).map State.dataCalls = some [DataCall.GetByID id])
      ↔ startsWithSlashDigit path = true) := by
  have hcalls : (ServeHTTP env path fresh).map State.dataCalls
      = some (if startsWithSlashDigit path = true
          then [DataCall.GetByID (Atoi (digitRun path)).1]
          else [DataCall.GetAll]) := by
    rw [ServeHTTP_eq]
    by_cases h : startsWithSlashDigit path = true
    · simp [h, getByID_dataCalls, fresh]
    · simp [h, getAll_dataCalls, fresh]
  refine ⟨ServeHTTP_eq env path s, ?_, hcalls, ?_⟩
  · intro h
    exact Atoi_digits _ (digitRun_ne_nil h) (digitRun_all_digits path)
  · rw [hcalls]
    by_cases h : startsWithSlashDigit path = true
    · simp [h]
    · simp [h]

/-- C10 at `/42/extra`: the path starts with a slash and a digit, the digit run
is `42`, and `data.GetByID` is called with 42. -/
theorem ServeHTTP_routing_witness :
    startsWithSlashDigit ['/', '4', '2', '/', 'e', 'x', 't', 'r', 'a'] = true ∧
    digitRun ['/', '4', '2', '/', 'e', 'x', 't', 'r', 'a'] = ['4', '2'] ∧
    (Atoi (digitRun ['/', '4', '2', '/', 'e', 'x', 't', 'r', 'a'])).1
      = (if decimalValue (digitRun ['/', '4', '2', '/', 'e', 'x', 't', 'r', 'a']) < 2 ^ 63
          then (decimalValue (digitRun ['/', '4', '2', '/', 'e', 'x', 't', 'r', 'a']) : Int)
          else maxInt) :=
  ⟨by decide, by decide,
    (ServeHTTP_routing okEnv ['/', '4', '2', '/', 'e', 'x', 't', 'r', 'a'] fresh).2.1
      (by decide)⟩

/-! ## Responses -/

/-- When `encodeAsJSON` reports no error on a writer with nothing written, the
value was rendered and the writer holds status 200 and one write of the
rendering followed by a newline. -/
theorem encodeAsJSON_ok {Event : Type} (env : Env Event) (v : Value Event)
    (h : (encodeAsJSON env v fresh.w).2 = none) :
    ∃ b, env.marshal v = Except.ok b ∧
      (encodeAsJSON env v fresh.w).1 =
        { header := [], status := some StatusOK, body := b ++ [10],
          effects := [Effect.write (b ++ [10])] } := by
  unfold encodeAsJSON at h ⊢
  cases hm : env.marshal v with
  | error e => simp [hm] at h
  | ok b =>
    refine ⟨b, rfl, ?_⟩
    simp only [hm, ResponseWriter.Write, fresh] at h ⊢
    cases hs : env.streamWrite (b ++ [10]) with
    | done => simp
    | failed n err => simp [hs] at h

theorem encodeAsJSON_effects {Event : Type} (env : Env Event) (v : Value Event) :
    ((encodeAsJSON env v fresh.w).2 = none ∧
      ∃ p, (encodeAsJSON env v fresh.w).1.effects = [Effect.write p]) ∨
    ((encodeAsJSON env v fresh.w).2 ≠ none ∧
      ((encodeAsJSON env v fresh.w).1.effects = [] ∨
       ∃ p, (encodeAsJSON env v fresh.w).1.effects = [Effect.write p])) := by
  unfold encodeAsJSON
  cases env.marshal v with
  | error e => right; simp [fresh]
  | ok b =>
    simp only [ResponseWriter.Write, fresh]
    cases env.streamWrite (b ++ [10]) with
    | done => left; simp
    | failed n err => right; simp

theorem getAll_trace {Event : Type} (env : Env Event) :
    handlerTrace (getAll env fresh).w.effects := by
  unfold getAll
  cases env.GetAll with
  | error e => left; rfl
  | ok events =>
    have h := encodeAsJSON_effects env (Value.events events)
    dsimp only
    generalize encodeAsJSON env (Value.events events) fresh.w = r at h ⊢
    rcases r with ⟨w, _ | e⟩
    · rcases h with ⟨_, p, hp⟩ | ⟨h1, _⟩
      · right; left; exact ⟨p, hp⟩
      · exact absurd rfl h1
    · rcases h with ⟨h1, _⟩ | ⟨_, h2 | ⟨p, hp⟩⟩
      · simp at h1
      · left
        simp only at h2
        simp [ResponseWriter.WriteHeader, h2]
      · right; right
        simp only at hp
        exact ⟨p, by simp [ResponseWriter.WriteHeader, hp]⟩

theorem getByID_trace {Event : Type} (env : Env Event) (id : Int) :
    handlerTrace (getByID env id fresh).w.effects := by
  unfold getByID
  cases env.GetByID id with
  | error e => left; rfl
  | ok event =>
    have h := encodeAsJSON_effects env (Value.event event)
    dsimp only
    generalize encodeAsJSON env (Value.event event) fresh.w = r at h ⊢
    rcases r with ⟨w, _ | e⟩
    · rcases h with ⟨_, p, hp⟩ | ⟨h1, _⟩
      · right; left; exact ⟨p, hp⟩
      · exact absurd rfl h1
    · rcases h with ⟨h1, _⟩ | ⟨_, h2 | ⟨p, hp⟩⟩
      · simp at h1
      · left
        simp only at h2
        simp [ResponseWriter.WriteHeader, h2]
      · right; right
        simp only at hp
        exact ⟨p, by simp [ResponseWriter.WriteHeader, hp]⟩

/-- For every path, collaborator and stream, the writer calls of `ServeHTTP`
have one of the three shapes; so no body write follows a failure status, there
is at most one body write and at most one explicit `WriteHeader`. -/
theorem ServeHTTP_trace {Event : Type} (env : Env Event) (path : List Char) :
    ∃ s, ServeHTTP env path fresh = some s ∧ handlerTrace s.w.effects ∧
      noWriteAfterFailure false s.w.effects = true ∧
      statusCount false s.w.effects ≤ 2 := by
  rw [ServeHTTP_eq]
  refine ⟨_, rfl, ?_⟩
  have ht : handlerTrace (if startsWithSlashDigit path = true
      then getByID env (Atoi (digitRun path)).1 fresh else getAll env fresh).w.effects := by
    split
    · exact getByID_trace env _
    · exact getAll_trace env
  refine ⟨ht, ?_⟩
  rcases ht with h | ⟨p, h⟩ | ⟨p, h⟩ <;> rw [h] <;>
    simp [noWriteAfterFailure, statusCount, StatusInternalServerError]

/-- C3: whenever the data collaborator succeeds and `encodeAsJSON` reports no
error, the response has status 200 and its body is the JSON rendering of the
very value the collaborator returned, followed by the encoder's newline,
written in one `Write`; `WriteHeader` is not called and nothing is logged.
This holds for `getAll` with the whole sequence from `data.GetAll` and for
`getByID id` with the event from `data.GetByID id`. -/
theorem success_response {Event : Type} (env : Env Event) :
    (∀ events, env.GetAll = Except.ok events →
      (encodeAsJSON env (Value.events events) fresh.w).2 = none →
      ∃ b, env.marshal (Value.events events) = Except.ok b ∧
        getAll env fresh =
          { w := { header := [], status := some StatusOK, body := b ++ [10],
                   effects := [Effect.write (b ++ [10])] },
            log := [], dataCalls := [DataCall.GetAll] }) ∧
    (∀ id event, env.GetByID id = Except.ok event →
      (encodeAsJSON env (Value.event event) fresh.w).2 = none →
      ∃ b, env.marshal (Value.event event) = Except.ok b ∧
        getByID env id fresh =
          { w := { header := [], status := some StatusOK, body := b ++ [10],
                   effects := [Effect.write (b ++ [10])] },
            log := [], dataCalls := [DataCall.GetByID id] }) := by
  constructor
  · intro events hget henc
    obtain ⟨b, hb, hw⟩ := encodeAsJSON_ok env (Value.events events) henc
    refine ⟨b, hb, ?_⟩
    unfold getAll
    simp only [hget]
    generalize encodeAsJSON env (Value.events events) fresh.w = r at henc hw
    rcases r with ⟨w, _ | e⟩
    · simp only at hw
      simp [hw, fresh]
    · simp at henc
  · intro id event hget henc
    obtain ⟨b, hb, hw⟩ := encodeAsJSON_ok env (Value.event event) henc
    refine ⟨b, hb, ?_⟩
    unfold getByID
    simp only [hget]
    generalize encodeAsJSON env (Value.event event) fresh.w = r at henc hw
    rcases r with ⟨w, _ | e⟩
    · simp only at hw
      simp [hw, fresh]
    · simp at henc

/-- C3 at a collaborator with the three events 7, 8, 9 and the event 7 for
identifier 7: the bodies are the renderings of exactly these values. -/
theorem success_response_witness :
    (∃ b, okEnv.marshal (Value.events [7, 8, 9]) = Except.ok b ∧
      getAll okEnv fresh =
        { w := { header := [], status := some StatusOK, body := b ++ [10],
                 effects := [Effect.write (b ++ [10])] },
          log := [], dataCalls := [DataCall.GetAll] }) ∧
    (∃ b, okEnv.marshal (Value.event 7) = Except.ok b ∧
      getByID okEnv 7 fresh =
        { w := { header := [], status := some StatusOK, body := b ++ [10],
                 effects := [Effect.write (b ++ [10])] },
          log := [], dataCalls := [DataCall.GetByID 7] }) :=
  ⟨(success_response okEnv).1 [7, 8, 9] rfl (by decide),
   (success_response okEnv).2 7 7 rfl (by decide)⟩

/-- C4: for every identifier, when `data.GetByID id` returns an error,
`getByID` leaves status 500, an empty body, a single writer call
(`WriteHeader(500)`, so nothing was encoded) and exactly one log entry, the
error itself. -/
theorem getByID_data_error {Event : Type} (env : Env Event) (id : Int) (err : GoError)
    (h : env.GetByID id = Except.error err) :
    getByID env id fresh =
      { w := { header := [], status := some StatusInternalServerError, body := [],
               effects := [Effect.writeHeader StatusInternalServerError] },
        log := [err], dataCalls := [DataCall.GetByID id] } := by
  simp [getByID, h, fresh, ResponseWriter.WriteHeader]

/-- C4 at identifier 9 with a collaborator whose lookup fails. -/
theorem getByID_data_error_witness :
    failingDataEnv.GetByID 9 = Except.error "no such event" ∧
    getByID failingDataEnv 9 fresh =
      { w := { header := [], status := some 500, body := [],
               effects := [Effect.writeHeader 500] },
        log := ["no such event"], dataCalls := [DataCall.GetByID 9] } :=
  ⟨rfl, getByID_data_error failingDataEnv 9 "no such event" rfl⟩

/-- C5: when `data.GetAll` returns an error, `getAll` leaves status 500, an
empty body, a single writer call (`WriteHeader(500)`, so nothing was encoded)
and no log entry. -/
theorem getAll_data_error {Event : Type} (env : Env Event) (err : GoError)
    (h : env.GetAll = Except.error err) :
    getAll env fresh =
      { w := { header := [], status := some StatusInternalServerError, body := [],
               effects := [Effect.writeHeader StatusInternalServerError] },
        log := [], dataCalls := [DataCall.GetAll] } := by
  simp [getAll, h, fresh, ResponseWriter.WriteHeader]

/-- C5 at a collaborator whose `GetAll` fails. -/
theorem getAll_data_error_witness :
    failingDataEnv.GetAll = Except.error "no events" ∧
    getAll failingDataEnv fresh =
      { w := { header := [], status := some 500, body := [],
               effects := [Effect.writeHeader 500] },
        log := [], dataCalls := [DataCall.GetAll] } :=
  ⟨rfl, getAll_data_error failingDataEnv "no events" rfl⟩

/-- C6 fails on the code: with a stream whose `Write` fails, a request for `/`
and a request for `/7` both make a body write, which commits the implicit 200,
and then an explicit `WriteHeader(500)`: two statuses. -/
theorem two_statuses_on_failed_write :
    (ServeHTTP brokenStreamEnv ['/'] fresh).map (fun s => s.w.effects)
      = some [Effect.write [91, 7, 8, 9, 93, 10], Effect.writeHeader 500] ∧
    (ServeHTTP brokenStreamEnv ['/'] fresh).map (fun s => statusCount false s.w.effects)
      = some 2 ∧
    (ServeHTTP brokenStreamEnv ['/', '7'] fresh).map (fun s => s.w.effects)
      = some [Effect.write [123, 7, 125, 10], Effect.writeHeader 500] ∧
    (ServeHTTP brokenStreamEnv ['/', '7'] fresh).map (fun s => statusCount false s.w.effects)
      = some 2 := by
  decide

/-- C7 fails on the code: with a stream whose `Write` fails, `encodeAsJSON`
reports an error in `getAll` and in `getByID`, and the status committed to the
client is 200 with an empty body, not 500. -/
theorem failed_write_leaves_200 :
    (encodeAsJSON brokenStreamEnv (Value.events [7, 8, 9]) fresh.w).2
      = some "write: broken pipe" ∧
    (getAll brokenStreamEnv fresh).w.status = some 200 ∧
    (getAll brokenStreamEnv fresh).w.body = [] ∧
    (encodeAsJSON brokenStreamEnv (Value.event 7) fresh.w).2
      = some "write: broken pipe" ∧
    (getByID brokenStreamEnv 7 fresh).w.status = some 200 ∧
    (getByID brokenStreamEnv 7 fresh).w.body = [] := by
  decide

/-- When the rendering itself fails, nothing is written before the error, and
the response is status 500 with an empty body, as after a failed lookup. -/
theorem marshal_error_response {Event : Type} (env : Env Event) :
    (∀ events err, env.GetAll = Except.ok events →
      env.marshal (Value.events events) = Except.error err →
      (getAll env fresh).w =
        { header := [], status := some StatusInternalServerError, body := [],
          effects := [Effect.writeHeader StatusInternalServerError] }) ∧
    (∀ id event err, env.GetByID id = Except.ok event →
      env.marshal (Value.event event) = Except.error err →
      (getByID env id fresh).w =
        { header := [], status := some StatusInternalServerError, body := [],
          effects := [Effect.writeHeader StatusInternalServerError] }) := by
  constructor
  · intro events err hget hm
    simp [getAll, hget, encodeAsJSON, hm, fresh, ResponseWriter.WriteHeader]
  · intro id event err hget hm
    simp [getByID, hget, encodeAsJSON, hm, fresh, ResponseWriter.WriteHeader]

/-- The same at a collaborator whose values cannot be rendered: `getAll` and
`getByID 7` both end with status 500, an empty body and the single writer call
`WriteHeader(500)`. -/
theorem marshal_error_response_at :
    (getAll failingMarshalEnv fresh).w =
      { header := [], status := some 500, body := [],
        effects := [Effect.writeHeader 500] } ∧
    (getByID failingMarshalEnv 7 fresh).w =
      { header := [], status := some 500, body := [],
        effects := [Effect.writeHeader 500] } :=
  ⟨(marshal_error_response failingMarshalEnv).1 [7, 8, 9] "json: unsupported value" rfl rfl,
   (marshal_error_response failingMarshalEnv).2 7 7 "json: unsupported value" rfl rfl⟩

/-- C9, as stated, fails: a request for `/` and a request for `/7` that
succeed (status 200) leave the header map without a `Content-Type`. -/
theorem success_without_content_type :
    (ServeHTTP okEnv ['/'] fresh).map (fun s => s.w.status) = some (some 200) ∧
    (ServeHTTP okEnv ['/'] fresh).map (fun s => s.w.header.lookup "Content-Type")
      = some none ∧
    (ServeHTTP okEnv ['/', '7'] fresh).map (fun s => s.w.status) = some (some 200) ∧
    (ServeHTTP okEnv ['/', '7'] fresh).map (fun s => s.w.header.lookup "Content-Type")
      = some none := by
  decide

/-- C9, amended: the handler sets no response header. For every path,
collaborator and stream, on success and on failure, `ServeHTTP` returns with
the header map of the response writer exactly as it received it. -/
theorem ServeHTTP_header_unchanged {Event : Type} (env : Env Event) (path : List Char)
    (s : State) :
    (ServeHTTP env path s).map (fun t => t.w.header) = some s.w.header := by
  rw [ServeHTTP_eq]
  by_cases h : startsWithSlashDigit path = true
  · simp [h, getByID_header]
  · simp [h, getAll_header]

end Events
